import Mathlib

/-!
Shallow embedding of the `formdata-io` server-side ingestion pipeline
(`src/server/parser.ts`, variant with the extended limit options:
`maxFields`, `maxFieldSize`, `maxTotalFileSize`).

The external multipart decoder (busboy) is modelled by the ordered list of
events it delivers to the handlers registered in `parseMultipart`:
`field`, `file` (with the file's sub-stream given as its list of data
chunks), `limit`, `error` and `finish`.  The promise returned by
`parseMultipart` is modelled by the `settled` component of the controller
state: the first `resolve`/`reject` wins, later ones are no-ops.

Bytes are modelled as natural numbers, a chunk as a list of bytes.  The
JavaScript `Number(value)` string conversion is embedded as `strToNumber`
following the ECMAScript StringNumericLiteral grammar (finite values are
kept as exact rationals; IEEE rounding is irrelevant to the properties
proved here).  `JSON.parse` is an external collaborator and is passed in
as an oracle `jsonParse : String → Option JsonVal`.
-/

namespace FormData

/-! ### JSON values (output type of the external JSON.parse collaborator) -/

mutual

inductive JsonVal where
  | null
  | bool (b : Bool)
  | num (q : ℚ)
  | str (s : String)
  | arr (elems : JsonArr)
  | obj (fields : JsonObj)
deriving DecidableEq

inductive JsonArr where
  | nil
  | cons (hd : JsonVal) (tl : JsonArr)
deriving DecidableEq

inductive JsonObj where
  | nil
  | cons (key : String) (val : JsonVal) (tl : JsonObj)
deriving DecidableEq

end

/-- A JSON.parse oracle that always fails; used for concrete runs whose
field values are not JSON. -/
def jsonNone : String → Option JsonVal := fun _ => none

/-! ### The JavaScript number model: `Number(value)` on strings -/

/-- Result of the JavaScript `Number(string)` conversion.  Finite doubles
are modelled as exact rationals. -/
inductive JSNum where
  | nan
  | posInf
  | negInf
  | fin (q : ℚ)
deriving DecidableEq

/-- Strip leading and trailing whitespace, as JavaScript `String.trim`
and the StringNumericLiteral grammar do. -/
def jsTrimChars (cs : List Char) : List Char :=
  ((cs.dropWhile Char.isWhitespace).reverse.dropWhile Char.isWhitespace).reverse

/-- Model of JavaScript `value.trim()`. -/
def jsTrim (s : String) : String :=
  String.mk (jsTrimChars s.toList)

/-- Numeric value of a decimal digit character. -/
def decValue (c : Char) : Nat := c.toNat - 48

/-- Numeric value of a hexadecimal digit character. -/
def hexValue (c : Char) : Nat :=
  if c.isDigit then c.toNat - 48
  else if 'a' ≤ c ∧ c ≤ 'f' then c.toNat - 87
  else c.toNat - 55

/-- Whether a character is a hexadecimal digit. -/
def isHexDigitChar (c : Char) : Bool :=
  c.isDigit || ('a' ≤ c && c ≤ 'f') || ('A' ≤ c && c ≤ 'F')

/-- Value of a digit string in a given base (digits already validated). -/
def natFromDigits (base : Nat) (digitValue : Char → Nat) (ds : List Char) : Nat :=
  ds.foldl (fun acc c => acc * base + digitValue c) 0

/-- Ten to an integer power, as a rational. -/
def qpow10 (e : Int) : ℚ :=
  if 0 ≤ e then ((10 : ℚ) ^ e.toNat) else 1 / ((10 : ℚ) ^ (-e).toNat)

/-- Parse the ExponentPart after its leading `e`/`E`: an optional sign and
at least one decimal digit, consuming the whole remaining input. -/
def parseExponentTail (cs : List Char) : Option Int :=
  let signed : Bool × List Char :=
    match cs with
    | '+' :: r => (false, r)
    | '-' :: r => (true, r)
    | r => (false, r)
  if signed.2 ≠ [] ∧ signed.2.all Char.isDigit then
    some (if signed.1 then -(natFromDigits 10 decValue signed.2 : Int)
          else (natFromDigits 10 decValue signed.2 : Int))
  else none

/-- Parse a StrUnsignedDecimalLiteral other than `Infinity`, consuming the
whole input: `DecimalDigits [. DecimalDigits] [Exponent]`, `. DecimalDigits
[Exponent]` or `DecimalDigits Exponent`. -/
def parseUnsignedDec (cs : List Char) : Option ℚ :=
  let intDigits := cs.takeWhile Char.isDigit
  let rest := cs.drop intDigits.length
  match rest with
  | [] =>
      if intDigits = [] then none
      else some (natFromDigits 10 decValue intDigits : ℚ)
  | '.' :: rest2 =>
      let fracDigits := rest2.takeWhile Char.isDigit
      let rest3 := rest2.drop fracDigits.length
      if intDigits = [] ∧ fracDigits = [] then none
      else
        let mantissa : ℚ :=
          (natFromDigits 10 decValue intDigits : ℚ) +
            (natFromDigits 10 decValue fracDigits : ℚ) / ((10 : ℚ) ^ fracDigits.length)
        match rest3 with
        | [] => some mantissa
        | 'e' :: t => (parseExponentTail t).map (fun e => mantissa * qpow10 e)
        | 'E' :: t => (parseExponentTail t).map (fun e => mantissa * qpow10 e)
        | _ => none
  | 'e' :: t =>
      if intDigits = [] then none
      else (parseExponentTail t).map
        (fun e => (natFromDigits 10 decValue intDigits : ℚ) * qpow10 e)
  | 'E' :: t =>
      if intDigits = [] then none
      else (parseExponentTail t).map
        (fun e => (natFromDigits 10 decValue intDigits : ℚ) * qpow10 e)
  | _ => none

/-- Parse a signed StrDecimalLiteral (`[+-]` then `Infinity` or an unsigned
decimal literal), consuming the whole input. -/
def parseSignedDec (cs : List Char) : Option JSNum :=
  let signed : Bool × List Char :=
    match cs with
    | '+' :: r => (false, r)
    | '-' :: r => (true, r)
    | r => (false, r)
  if signed.2 = ['I', 'n', 'f', 'i', 'n', 'i', 't', 'y'] then
    some (if signed.1 then JSNum.negInf else JSNum.posInf)
  else
    match parseUnsignedDec signed.2 with
    | some q => some (JSNum.fin (if signed.1 then -q else q))
    | none => none

/-- Parse an unsigned non-decimal integer literal (`0x`, `0o`, `0b`),
consuming the whole input. -/
def parseNonDecimal (cs : List Char) : Option JSNum :=
  match cs with
  | '0' :: b :: ds =>
      if (b = 'x' ∨ b = 'X') ∧ ds ≠ [] ∧ ds.all isHexDigitChar then
        some (JSNum.fin (natFromDigits 16 hexValue ds : ℚ))
      else if (b = 'o' ∨ b = 'O') ∧ ds ≠ [] ∧ ds.all (fun c => '0' ≤ c && c ≤ '7') then
        some (JSNum.fin (natFromDigits 8 decValue ds : ℚ))
      else if (b = 'b' ∨ b = 'B') ∧ ds ≠ [] ∧ ds.all (fun c => c = '0' || c = '1') then
        some (JSNum.fin (natFromDigits 2 decValue ds : ℚ))
      else none
  | _ => none

/-- Model of JavaScript `Number(value)` on a string, following the
ECMAScript StringNumericLiteral grammar: trim whitespace, empty → 0,
otherwise a non-decimal integer literal or a signed decimal literal
(including `Infinity`), anything else → NaN. -/
def strToNumber (s : String) : JSNum :=
  match jsTrimChars s.toList with
  | [] => JSNum.fin 0
  | cs =>
      match parseNonDecimal cs with
      | some n => n
      | none =>
          match parseSignedDec cs with
          | some n => n
          | none => JSNum.nan

/-- Model of JavaScript `isNaN(num)` on an already-converted number. -/
def jsIsNaN : JSNum → Bool
  | JSNum.nan => true
  | _ => false

/-! ### Configuration (`ParserOptions`, `DEFAULT_OPTIONS`) -/

/-- The resolved parser options (`Required<ParserOptions>` in the source).
`maxTotalFileSize : Option Nat` models a byte bound, `none` standing for
the default `Infinity`. -/
structure ParserOptions where
  maxFileSize : Nat
  maxFiles : Nat
  maxFields : Nat
  maxFieldSize : Nat
  maxTotalFileSize : Option Nat
  autoParseJSON : Bool
  autoParseNumbers : Bool
  autoParseBooleans : Bool
deriving DecidableEq

/-- DEFAULT_OPTIONS from the source. -/
def DEFAULT_OPTIONS : ParserOptions where
  maxFileSize := 10 * 1024 * 1024
  maxFiles := 10
  maxFields := 100
  maxFieldSize := 64 * 1024
  maxTotalFileSize := none
  autoParseJSON := true
  autoParseNumbers := true
  autoParseBooleans := true

/-! ### Parsed values and the payload -/

/-- A chunk of file bytes. -/
abbrev Chunk := List Nat

/-- ParsedFile from the source: metadata plus the in-memory byte buffer. -/
structure ParsedFile where
  fieldname : String
  originalname : String
  encoding : String
  mimetype : String
  size : Nat
  buffer : List Nat
deriving DecidableEq

/-- A single parsed value (the source's `ParsedValue` union:
string | number | boolean | object | ParsedFile). -/
inductive ParsedValue where
  | str (s : String)
  | num (n : JSNum)
  | bool (b : Bool)
  | json (j : JsonVal)
  | file (f : ParsedFile)
deriving DecidableEq

/-- A payload entry: either a bare value or the array a repeated name has
been converted to. -/
inductive PayloadEntry where
  | single (v : ParsedValue)
  | list (vs : List ParsedValue)
deriving DecidableEq

/-- ParsedPayload: a JavaScript object keyed by field name, modelled as an
association list in key insertion order (JS objects preserve string-key
insertion order). -/
abbrev ParsedPayload := List (String × PayloadEntry)

/-- Lookup of a key in the payload object. -/
def lookupEntry : ParsedPayload → String → Option PayloadEntry
  | [], _ => none
  | (k, e) :: rest, n => if k = n then some e else lookupEntry rest n

/-- normalizeField from the source: first occurrence stores the bare value,
a second converts to a two-element array, later ones push onto the array.
Updating an existing key keeps its position; a new key is appended. -/
def normalizeField (payload : ParsedPayload) (fieldname : String)
    (value : ParsedValue) : ParsedPayload :=
  match payload with
  | [] => [(fieldname, PayloadEntry.single value)]
  | (k, e) :: rest =>
      if k = fieldname then
        match e with
        | PayloadEntry.single w => (k, PayloadEntry.list [w, value]) :: rest
        | PayloadEntry.list ws => (k, PayloadEntry.list (ws ++ [value])) :: rest
      else
        (k, e) :: normalizeField rest fieldname value

/-- Model of the single-character JavaScript `value.startsWith(c)` used by
autoParse. -/
def jsStartsWithChar (s : String) (c : Char) : Bool :=
  s.toList.head? = some c

/-- Model of the single-character JavaScript `value.endsWith(c)` used by
autoParse. -/
def jsEndsWithChar (s : String) (c : Char) : Bool :=
  s.toList.getLast? = some c

/-- The JSON-branch guard of autoParse: the value is brace- or
bracket-delimited. -/
def jsonDelimited (value : String) : Bool :=
  (jsStartsWithChar value '{' && jsEndsWithChar value '}') ||
    (jsStartsWithChar value '[' && jsEndsWithChar value ']')

/-- autoParse from the source (variant with JSON → number → boolean order):
try JSON.parse when enabled and the value is `\x7b...\x7d` or `[...]`
delimited, then numeric conversion (guarded by `!isNaN` and a non-blank
trim), then the boolean literals, else fall back to the original string. -/
def autoParse (jsonParse : String → Option JsonVal) (value : String)
    (options : ParserOptions) : ParsedValue :=
  let jsonAttempt : Option JsonVal :=
    if options.autoParseJSON && jsonDelimited value then jsonParse value
    else none
  match jsonAttempt with
  | some j => ParsedValue.json j
  | none =>
      let num := strToNumber value
      if options.autoParseNumbers && !jsIsNaN num && !(jsTrim value = "") then
        ParsedValue.num num
      else if options.autoParseBooleans && value = "true" then
        ParsedValue.bool true
      else if options.autoParseBooleans && value = "false" then
        ParsedValue.bool false
      else
        ParsedValue.str value

/-! ### Decoder events, failures, controller state -/

/-- Metadata the decoder supplies with each file part. -/
structure FileInfo where
  filename : String
  encoding : String
  mimeType : String
deriving DecidableEq

/-- One event of the external decoder, in the order its handlers fire.  A
file part carries its sub-stream as the ordered list of data chunks the
stream delivers before its end event. -/
inductive DecoderEvent where
  | field (fieldname : String) (value : String)
  | file (fieldname : String) (info : FileInfo) (chunks : List Chunk)
  | limit
  | error
  | finish
deriving DecidableEq

/-- The failure kinds `parseMultipart` can reject with. -/
inductive IngestError where
  | missingContentType
  | tooManyFiles (bound : Nat)
  | fileTooLarge (bound : Nat)
  | totalSizeExceeded (bound : Nat)
  | fileSizeLimitEvent
  | decodeError
deriving DecidableEq

/-- The settled value of the returned promise. -/
inductive Outcome where
  | ok (payload : ParsedPayload)
  | err (e : IngestError)
deriving DecidableEq

/-- The mutable closure state of one `parseMultipart` call, together with
the promise's settled value.  `consumedBytes` records how many file bytes
have been taken off the request stream (delivered to a data handler or
drained by `resume()`). -/
structure PState where
  payload : ParsedPayload
  files : List ParsedFile
  fileCount : Nat
  hasError : Bool
  totalFileSize : Nat
  consumedBytes : Nat
  settled : Option Outcome
deriving DecidableEq

/-- The state at the start of an ingestion. -/
def initState : PState :=
  { payload := [], files := [], fileCount := 0, hasError := false
    totalFileSize := 0, consumedBytes := 0, settled := none }

/-- Settling the promise: the first `resolve`/`reject` wins, later calls
are no-ops. -/
def settle (s : PState) (o : Outcome) : PState :=
  match s.settled with
  | some _ => s
  | none => { s with settled := some o }

/-- Per-file accumulation state of the data handler closure. -/
structure FileAcc where
  size : Nat
  fileSizeExceeded : Bool
  chunks : List Chunk
deriving DecidableEq

/-- Total byte length of a list of chunks. -/
def chunksBytes (chunks : List Chunk) : Nat :=
  (chunks.map List.length).sum

/-- The `file.on(data)` handler: skip when an error was already recorded,
otherwise accumulate the sizes, enforce `maxFileSize` then
`maxTotalFileSize`, and buffer the chunk only when both pass.  Every
delivered chunk is consumed from the request stream. -/
def onFileData (opts : ParserOptions) (st : PState) (acc : FileAcc)
    (chunk : Chunk) : PState × FileAcc :=
  let st := { st with consumedBytes := st.consumedBytes + chunk.length }
  if st.hasError || acc.fileSizeExceeded then
    (st, acc)
  else
    let size := acc.size + chunk.length
    let st := { st with totalFileSize := st.totalFileSize + chunk.length }
    if opts.maxFileSize < size then
      (settle { st with hasError := true }
         (Outcome.err (IngestError.fileTooLarge opts.maxFileSize)),
       { acc with size := size, fileSizeExceeded := true })
    else
      match opts.maxTotalFileSize with
      | some m =>
          if m < st.totalFileSize then
            (settle { st with hasError := true }
               (Outcome.err (IngestError.totalSizeExceeded m)),
             { acc with size := size, fileSizeExceeded := true })
          else
            (st, { acc with size := size, chunks := acc.chunks ++ [chunk] })
      | none =>
          (st, { acc with size := size, chunks := acc.chunks ++ [chunk] })

/-- Deliver a file's chunks to the data handler in order. -/
def foldFileData (opts : ParserOptions) : PState → FileAcc → List Chunk → PState × FileAcc
  | st, acc, [] => (st, acc)
  | st, acc, c :: cs =>
      let p := onFileData opts st acc c
      foldFileData opts p.1 p.2 cs

/-- The `file.on(end)` handler: only keep the ParsedFile when no error was
recorded. -/
def onFileEnd (fieldname : String) (info : FileInfo) (st : PState)
    (acc : FileAcc) : PState :=
  if !st.hasError && !acc.fileSizeExceeded then
    { st with files := st.files ++
        [{ fieldname := fieldname, originalname := info.filename
           encoding := info.encoding, mimetype := info.mimeType
           size := acc.size, buffer := acc.chunks.flatten }] }
  else st

/-- The `busboy.on(file)` handler: count the file; past `maxFiles` set the
error flag, drain the whole sub-stream via `resume()` (its bytes are
consumed but never buffered) and reject; otherwise run the per-file data
handlers and the end handler. -/
def processFileEvent (opts : ParserOptions) (st : PState) (fieldname : String)
    (info : FileInfo) (chunks : List Chunk) : PState :=
  let st := { st with fileCount := st.fileCount + 1 }
  if opts.maxFiles < st.fileCount then
    settle { st with hasError := true
                     consumedBytes := st.consumedBytes + chunksBytes chunks }
      (Outcome.err (IngestError.tooManyFiles opts.maxFiles))
  else
    let p := foldFileData opts st { size := 0, fileSizeExceeded := false, chunks := [] } chunks
    onFileEnd fieldname info p.1 p.2

/-- One decoder event delivered to the handlers registered in
`parseMultipart`. -/
def step (jsonParse : String → Option JsonVal) (opts : ParserOptions)
    (st : PState) : DecoderEvent → PState
  | DecoderEvent.field name value =>
      { st with payload := normalizeField st.payload name (autoParse jsonParse value opts) }
  | DecoderEvent.file name info chunks =>
      processFileEvent opts st name info chunks
  | DecoderEvent.limit =>
      if st.hasError then st
      else settle { st with hasError := true }
        (Outcome.err IngestError.fileSizeLimitEvent)
  | DecoderEvent.error =>
      settle st (Outcome.err IngestError.decodeError)
  | DecoderEvent.finish =>
      if st.hasError then st
      else
        let finalPayload :=
          st.files.foldl (fun p f => normalizeField p f.fieldname (ParsedValue.file f)) st.payload
        settle { st with payload := finalPayload } (Outcome.ok finalPayload)

/-- Run the controller over a decoder event sequence. -/
def runEvents (jsonParse : String → Option JsonVal) (opts : ParserOptions)
    (st : PState) (events : List DecoderEvent) : PState :=
  events.foldl (step jsonParse opts) st

/-- parseMultipart: validate the content-type header (absent or empty is
falsy in the source's check), then drive the handlers over the decoder's
events; the result is the settled value of the returned promise. -/
def parseMultipart (jsonParse : String → Option JsonVal) (opts : ParserOptions)
    (contentType : Option String) (events : List DecoderEvent) : Option Outcome :=
  match contentType with
  | none => some (Outcome.err IngestError.missingContentType)
  | some ct =>
      if ct = "" then some (Outcome.err IngestError.missingContentType)
      else (runEvents jsonParse opts initState events).settled

/-! ### Derived notions used by the statements -/

/-- Whether an event is a text-field event. -/
def isFieldEvent : DecoderEvent → Bool
  | DecoderEvent.field _ _ => true
  | _ => false

/-- Number of file events in a sequence. -/
def countFileEvents (es : List DecoderEvent) : Nat :=
  (es.filter (fun e => match e with | DecoderEvent.file _ _ _ => true | _ => false)).length

/-- Bytes carried by one event. -/
def eventBytes : DecoderEvent → Nat
  | DecoderEvent.file _ _ chunks => chunksBytes chunks
  | _ => 0

/-- Total file bytes carried by an event sequence. -/
def eventsBytes (es : List DecoderEvent) : Nat :=
  (es.map eventBytes).sum

/-- Whether a payload entry holds a given value (bare, or as one element
of the array a repeated name produced). -/
def entryHas (e : PayloadEntry) (v : ParsedValue) : Prop :=
  match e with
  | PayloadEntry.single w => w = v
  | PayloadEntry.list ws => v ∈ ws

/-- The payload maps `name` to an entry holding `v`. -/
def payloadContains (p : ParsedPayload) (name : String) (v : ParsedValue) : Prop :=
  ∃ e, lookupEntry p name = some e ∧ entryHas e v

/-- Every file kept in the state has its recorded size equal to its buffer
length. -/
def sizeConsistent (st : PState) : Prop :=
  ∀ f ∈ st.files, f.size = f.buffer.length

/-! ### Basic lemmas about the controller -/

lemma runEvents_append (jp : String → Option JsonVal) (opts : ParserOptions)
    (st : PState) (e₁ e₂ : List DecoderEvent) :
    runEvents jp opts st (e₁ ++ e₂) = runEvents jp opts (runEvents jp opts st e₁) e₂ := by
  simp [runEvents, List.foldl_append]

lemma runEvents_cons (jp : String → Option JsonVal) (opts : ParserOptions)
    (st : PState) (e : DecoderEvent) (es : List DecoderEvent) :
    runEvents jp opts st (e :: es) = runEvents jp opts (step jp opts st e) es := by
  simp [runEvents]

lemma runEvents_nil (jp : String → Option JsonVal) (opts : ParserOptions)
    (st : PState) : runEvents jp opts st [] = st := rfl

lemma settle_of_some {st : PState} {o : Outcome} (h : st.settled = some o)
    (o' : Outcome) : settle st o' = st := by
  simp [settle, h]

lemma settled_settle_of_some {st : PState} {o : Outcome} (h : st.settled = some o)
    (o' : Outcome) : (settle st o').settled = some o := by
  simp [settle, h]

lemma settled_onFileData_of_some {opts : ParserOptions} {st : PState}
    {acc : FileAcc} {c : Chunk} {o : Outcome} (h : st.settled = some o) :
    ((onFileData opts st acc c).1).settled = some o := by
  unfold onFileData
  dsimp only
  split
  · exact h
  · split
    · simp [settle, h]
    · split
      · split
        · simp [settle, h]
        · exact h
      · exact h

lemma settled_foldFileData_of_some {opts : ParserOptions} {o : Outcome} :
    ∀ {st : PState} {acc : FileAcc} (chunks : List Chunk),
      st.settled = some o → ((foldFileData opts st acc chunks).1).settled = some o := by
  intro st acc chunks
  induction chunks generalizing st acc with
  | nil => intro h; simpa [foldFileData] using h
  | cons c cs ih =>
      intro h
      simp only [foldFileData]
      exact ih (settled_onFileData_of_some h)

lemma settled_onFileEnd {n : String} {info : FileInfo} {st : PState} {acc : FileAcc} :
    (onFileEnd n info st acc).settled = st.settled := by
  unfold onFileEnd
  split <;> rfl

lemma settled_step_of_some {jp : String → Option JsonVal} {opts : ParserOptions}
    {st : PState} {o : Outcome} (e : DecoderEvent) (h : st.settled = some o) :
    (step jp opts st e).settled = some o := by
  cases e with
  | field name value => simpa [step] using h
  | file name info chunks =>
      simp only [step, processFileEvent]
      split
      · simp [settle, h]
      · rw [settled_onFileEnd]
        exact settled_foldFileData_of_some _ h
  | limit =>
      simp only [step]
      split
      · exact h
      · simp [settle, h]
  | error => simpa [step] using settled_settle_of_some h _
  | finish =>
      simp only [step]
      split
      · exact h
      · simp [settle, h]

lemma settled_runEvents_of_some {jp : String → Option JsonVal} {opts : ParserOptions}
    {o : Outcome} :
    ∀ {st : PState} (es : List DecoderEvent),
      st.settled = some o → (runEvents jp opts st es).settled = some o := by
  intro st es
  induction es generalizing st with
  | nil => intro h; simpa [runEvents] using h
  | cons e es ih =>
      intro h
      rw [runEvents_cons]
      exact ih (settled_step_of_some e h)

lemma onFileData_preserves (opts : ParserOptions) (st : PState) (acc : FileAcc)
    (c : Chunk) :
    ((onFileData opts st acc c).1).payload = st.payload ∧
    ((onFileData opts st acc c).1).files = st.files ∧
    ((onFileData opts st acc c).1).fileCount = st.fileCount ∧
    ((onFileData opts st acc c).1).consumedBytes = st.consumedBytes + c.length := by
  unfold onFileData
  dsimp only
  split
  · exact ⟨rfl, rfl, rfl, rfl⟩
  · split
    · simp [settle]
      split <;> simp
    · split
      · split
        · simp [settle]
          split <;> simp
        · exact ⟨rfl, rfl, rfl, rfl⟩
      · exact ⟨rfl, rfl, rfl, rfl⟩

lemma foldFileData_preserves (opts : ParserOptions) :
    ∀ (chunks : List Chunk) (st : PState) (acc : FileAcc),
      ((foldFileData opts st acc chunks).1).payload = st.payload ∧
      ((foldFileData opts st acc chunks).1).files = st.files ∧
      ((foldFileData opts st acc chunks).1).fileCount = st.fileCount ∧
      ((foldFileData opts st acc chunks).1).consumedBytes
        = st.consumedBytes + chunksBytes chunks := by
  intro chunks
  induction chunks with
  | nil => intro st acc; simp [foldFileData, chunksBytes]
  | cons c cs ih =>
      intro st acc
      simp only [foldFileData]
      obtain ⟨h1, h2, h3, h4⟩ := onFileData_preserves opts st acc c
      obtain ⟨g1, g2, g3, g4⟩ := ih (onFileData opts st acc c).1 (onFileData opts st acc c).2
      refine ⟨g1.trans h1, g2.trans h2, g3.trans h3, ?_⟩
      rw [g4, h4]
      simp [chunksBytes, Nat.add_assoc]

lemma onFileEnd_preserves (n : String) (info : FileInfo) (st : PState) (acc : FileAcc) :
    (onFileEnd n info st acc).payload = st.payload ∧
    (onFileEnd n info st acc).fileCount = st.fileCount ∧
    (onFileEnd n info st acc).consumedBytes = st.consumedBytes ∧
    (onFileEnd n info st acc).hasError = st.hasError ∧
    (onFileEnd n info st acc).totalFileSize = st.totalFileSize := by
  unfold onFileEnd
  split <;> exact ⟨rfl, rfl, rfl, rfl, rfl⟩

lemma fileCount_step (jp : String → Option JsonVal) (opts : ParserOptions)
    (st : PState) (e : DecoderEvent) :
    (step jp opts st e).fileCount = st.fileCount + countFileEvents [e] := by
  cases e with
  | field name value => simp [step, countFileEvents]
  | file name info chunks =>
      simp only [step, processFileEvent, countFileEvents, List.filter, List.length]
      split
      · simp [settle]
        split <;> simp
      · rw [(onFileEnd_preserves _ _ _ _).2.1,
            (foldFileData_preserves opts chunks _ _).2.2.1]
  | limit =>
      simp only [step, countFileEvents, List.filter]
      split
      · simp
      · simp [settle]; split <;> simp
  | error =>
      simp only [step, countFileEvents, List.filter, settle]
      split <;> simp
  | finish =>
      simp only [step, countFileEvents, List.filter]
      split
      · simp
      · simp [settle]; split <;> simp

lemma countFileEvents_cons (e : DecoderEvent) (es : List DecoderEvent) :
    countFileEvents (e :: es) = countFileEvents [e] + countFileEvents es := by
  cases e <;> simp [countFileEvents, List.filter, Nat.add_comm]

lemma fileCount_runEvents (jp : String → Option JsonVal) (opts : ParserOptions) :
    ∀ (es : List DecoderEvent) (st : PState),
      (runEvents jp opts st es).fileCount = st.fileCount + countFileEvents es := by
  intro es
  induction es with
  | nil => intro st; simp [runEvents, countFileEvents]
  | cons e es ih =>
      intro st
      rw [runEvents_cons, ih, fileCount_step]
      conv_rhs => rw [countFileEvents_cons e es]
      omega

lemma consumed_step (jp : String → Option JsonVal) (opts : ParserOptions)
    (st : PState) (e : DecoderEvent) :
    (step jp opts st e).consumedBytes = st.consumedBytes + eventBytes e := by
  cases e with
  | field name value => simp [step, eventBytes]
  | file name info chunks =>
      simp only [step, processFileEvent, eventBytes]
      split
      · simp [settle]
        split <;> simp
      · rw [(onFileEnd_preserves _ _ _ _).2.2.1,
            (foldFileData_preserves opts chunks _ _).2.2.2]
  | limit =>
      simp only [step, eventBytes]
      split
      · simp
      · simp [settle]; split <;> simp
  | error =>
      simp only [step, eventBytes, settle]
      split <;> simp
  | finish =>
      simp only [step, eventBytes]
      split
      · simp
      · simp [settle]; split <;> simp

lemma consumed_runEvents (jp : String → Option JsonVal) (opts : ParserOptions) :
    ∀ (es : List DecoderEvent) (st : PState),
      (runEvents jp opts st es).consumedBytes = st.consumedBytes + eventsBytes es := by
  intro es
  induction es with
  | nil => intro st; simp [runEvents, eventsBytes]
  | cons e es ih =>
      intro st
      rw [runEvents_cons, ih, consumed_step]
      simp [eventsBytes, Nat.add_assoc]

lemma onFileData_inert {opts : ParserOptions} {st : PState} {acc : FileAcc}
    {c : Chunk} (h : st.hasError = true) :
    onFileData opts st acc c
      = ({ st with consumedBytes := st.consumedBytes + c.length }, acc) := by
  unfold onFileData
  simp [h]

lemma foldFileData_inert {opts : ParserOptions} :
    ∀ (chunks : List Chunk) {st : PState} {acc : FileAcc}, st.hasError = true →
      foldFileData opts st acc chunks
        = ({ st with consumedBytes := st.consumedBytes + chunksBytes chunks }, acc) := by
  intro chunks
  induction chunks with
  | nil => intro st acc h; simp [foldFileData, chunksBytes]
  | cons c cs ih =>
      intro st acc h
      simp only [foldFileData, onFileData_inert h]
      rw [ih (by simpa using h)]
      simp [chunksBytes, Nat.add_assoc]

lemma step_inert (jp : String → Option JsonVal) (opts : ParserOptions)
    {st : PState} {o : Outcome} (e : DecoderEvent) (he : st.hasError = true)
    (hs : st.settled = some o) :
    (step jp opts st e).hasError = true ∧
    (step jp opts st e).settled = some o ∧
    (step jp opts st e).files = st.files ∧
    (step jp opts st e).consumedBytes = st.consumedBytes + eventBytes e := by
  cases e with
  | field name value => simp [step, he, hs, eventBytes]
  | file name info chunks =>
      simp only [step, processFileEvent, eventBytes]
      split
      · simp [settle, he, hs]
      · rw [foldFileData_inert chunks (by simpa using he)]
        simp [onFileEnd, he, hs]
  | limit => simp [step, he, hs, eventBytes]
  | error => simp [step, settle, he, hs, eventBytes]
  | finish => simp [step, he, hs, eventBytes]

lemma runEvents_inert {jp : String → Option JsonVal} {opts : ParserOptions}
    {o : Outcome} :
    ∀ (es : List DecoderEvent) {st : PState}, st.hasError = true →
      st.settled = some o →
      (runEvents jp opts st es).hasError = true ∧
      (runEvents jp opts st es).settled = some o ∧
      (runEvents jp opts st es).files = st.files ∧
      (runEvents jp opts st es).consumedBytes = st.consumedBytes + eventsBytes es := by
  intro es
  induction es with
  | nil => intro st he hs; simp [runEvents, eventsBytes, he, hs]
  | cons e es ih =>
      intro st he hs
      rw [runEvents_cons]
      obtain ⟨s1, s2, s3, s4⟩ := step_inert jp opts e he hs
      obtain ⟨r1, r2, r3, r4⟩ := ih s1 s2
      refine ⟨r1, r2, r3.trans s3, ?_⟩
      rw [r4, s4]
      simp [eventsBytes, Nat.add_assoc]

lemma step_field (jp : String → Option JsonVal) (opts : ParserOptions)
    (st : PState) (name value : String) :
    step jp opts st (DecoderEvent.field name value)
      = { st with payload := normalizeField st.payload name (autoParse jp value opts) } := by
  simp [step]

lemma runEvents_fields (jp : String → Option JsonVal) (opts : ParserOptions) :
    ∀ (es : List DecoderEvent) (st : PState), (∀ e ∈ es, isFieldEvent e = true) →
      (runEvents jp opts st es).settled = st.settled ∧
      (runEvents jp opts st es).hasError = st.hasError ∧
      (runEvents jp opts st es).files = st.files ∧
      (runEvents jp opts st es).fileCount = st.fileCount ∧
      (runEvents jp opts st es).totalFileSize = st.totalFileSize ∧
      (runEvents jp opts st es).consumedBytes = st.consumedBytes := by
  intro es
  induction es with
  | nil => intro st _; simp [runEvents]
  | cons e es ih =>
      intro st hall
      rw [runEvents_cons]
      have he : isFieldEvent e = true := hall e (by simp)
      cases e with
      | field name value =>
          have := ih (step jp opts st (DecoderEvent.field name value))
            (fun x hx => hall x (by simp [hx]))
          simpa [step_field] using this
      | file name info chunks => simp [isFieldEvent] at he
      | limit => simp [isFieldEvent] at he
      | error => simp [isFieldEvent] at he
      | finish => simp [isFieldEvent] at he

lemma foldFileData_ok {opts : ParserOptions} (htot : opts.maxTotalFileSize = none) :
    ∀ (chunks : List Chunk) (st : PState) (acc : FileAcc),
      st.hasError = false → acc.fileSizeExceeded = false →
      acc.size + chunksBytes chunks ≤ opts.maxFileSize →
      foldFileData opts st acc chunks
        = ({ st with totalFileSize := st.totalFileSize + chunksBytes chunks,
                     consumedBytes := st.consumedBytes + chunksBytes chunks },
           { acc with size := acc.size + chunksBytes chunks,
                      chunks := acc.chunks ++ chunks }) := by
  intro chunks
  induction chunks with
  | nil => intro st acc he hx hle; simp [foldFileData, chunksBytes]
  | cons c cs ih =>
      intro st acc he hx hle
      have hcb : chunksBytes (c :: cs) = c.length + chunksBytes cs := by
        simp [chunksBytes]
      have hstep : onFileData opts st acc c
          = ({ st with totalFileSize := st.totalFileSize + c.length,
                       consumedBytes := st.consumedBytes + c.length },
             { acc with size := acc.size + c.length,
                        chunks := acc.chunks ++ [c] }) := by
        have hsz : ¬ (opts.maxFileSize < acc.size + c.length) := by
          rw [hcb] at hle; omega
        unfold onFileData
        simp [he, hx, hsz, htot]
      simp only [foldFileData, hstep]
      rw [ih _ _ (by simpa using he) (by simpa using hx) (by simp; rw [hcb] at hle; omega)]
      rw [hcb]
      simp [Nat.add_assoc, List.append_assoc]

lemma foldFileData_exceed {opts : ParserOptions} (htot : opts.maxTotalFileSize = none) :
    ∀ (chunks : List Chunk) (st : PState) (acc : FileAcc),
      st.hasError = false → st.settled = none → acc.fileSizeExceeded = false →
      acc.size ≤ opts.maxFileSize → opts.maxFileSize < acc.size + chunksBytes chunks →
      ((foldFileData opts st acc chunks).1).settled
          = some (Outcome.err (IngestError.fileTooLarge opts.maxFileSize)) ∧
      ((foldFileData opts st acc chunks).1).hasError = true ∧
      ((foldFileData opts st acc chunks).2).fileSizeExceeded = true := by
  intro chunks
  induction chunks with
  | nil =>
      intro st acc he hs hx hle hgt
      exfalso
      simp [chunksBytes] at hgt
      omega
  | cons c cs ih =>
      intro st acc he hs hx hle hgt
      have hcb : chunksBytes (c :: cs) = c.length + chunksBytes cs := by
        simp [chunksBytes]
      by_cases hover : opts.maxFileSize < acc.size + c.length
      · have hstep : onFileData opts st acc c
            = (settle { st with totalFileSize := st.totalFileSize + c.length,
                                consumedBytes := st.consumedBytes + c.length,
                                hasError := true }
                 (Outcome.err (IngestError.fileTooLarge opts.maxFileSize)),
               { acc with size := acc.size + c.length, fileSizeExceeded := true }) := by
          unfold onFileData
          simp [he, hx, hover]
        simp only [foldFileData, hstep]
        have hset : (settle { st with totalFileSize := st.totalFileSize + c.length,
                                      consumedBytes := st.consumedBytes + c.length,
                                      hasError := true }
              (Outcome.err (IngestError.fileTooLarge opts.maxFileSize)))
            = { st with totalFileSize := st.totalFileSize + c.length,
                        consumedBytes := st.consumedBytes + c.length,
                        hasError := true,
                        settled := some (Outcome.err (IngestError.fileTooLarge opts.maxFileSize)) } := by
          simp [settle, hs]
        rw [hset, foldFileData_inert cs (by simp)]
        simp
      · have hsz : ¬ (opts.maxFileSize < acc.size + c.length) := hover
        have hstep : onFileData opts st acc c
            = ({ st with totalFileSize := st.totalFileSize + c.length,
                         consumedBytes := st.consumedBytes + c.length },
               { acc with size := acc.size + c.length,
                          chunks := acc.chunks ++ [c] }) := by
          unfold onFileData
          simp [he, hx, hsz, htot]
        simp only [foldFileData, hstep]
        exact ih _ _ (by simpa using he) (by simpa using hs) (by simpa using hx)
          (by simp; omega) (by simp; rw [hcb] at hgt; omega)

/-! ### Lemmas about the field aggregator -/

lemma lookupEntry_normalizeField_none :
    ∀ (p : ParsedPayload) (n : String) (v : ParsedValue), lookupEntry p n = none →
      lookupEntry (normalizeField p n v) n = some (PayloadEntry.single v) := by
  intro p
  induction p with
  | nil => intro n v _; simp [normalizeField, lookupEntry]
  | cons kv rest ih =>
      intro n v h
      obtain ⟨k, e⟩ := kv
      by_cases hk : k = n
      · simp [lookupEntry, hk] at h
      · simp [lookupEntry, hk] at h
        simp [normalizeField, hk, lookupEntry]
        exact ih n v h

lemma lookupEntry_normalizeField_single :
    ∀ (p : ParsedPayload) (n : String) (w v : ParsedValue),
      lookupEntry p n = some (PayloadEntry.single w) →
      lookupEntry (normalizeField p n v) n = some (PayloadEntry.list [w, v]) := by
  intro p
  induction p with
  | nil => intro n w v h; simp [lookupEntry] at h
  | cons kv rest ih =>
      intro n w v h
      obtain ⟨k, e⟩ := kv
      by_cases hk : k = n
      · simp [lookupEntry, hk] at h
        subst h
        simp [normalizeField, hk, lookupEntry]
      · simp [lookupEntry, hk] at h
        simp [normalizeField, hk, lookupEntry]
        exact ih n w v h

lemma lookupEntry_normalizeField_list :
    ∀ (p : ParsedPayload) (n : String) (ws : List ParsedValue) (v : ParsedValue),
      lookupEntry p n = some (PayloadEntry.list ws) →
      lookupEntry (normalizeField p n v) n = some (PayloadEntry.list (ws ++ [v])) := by
  intro p
  induction p with
  | nil => intro n ws v h; simp [lookupEntry] at h
  | cons kv rest ih =>
      intro n ws v h
      obtain ⟨k, e⟩ := kv
      by_cases hk : k = n
      · simp [lookupEntry, hk] at h
        subst h
        simp [normalizeField, hk, lookupEntry]
      · simp [lookupEntry, hk] at h
        simp [normalizeField, hk, lookupEntry]
        exact ih n ws v h

lemma payloadContains_normalizeField_self (p : ParsedPayload) (n : String)
    (v : ParsedValue) : payloadContains (normalizeField p n v) n v := by
  rcases h : lookupEntry p n with _ | e
  · exact ⟨PayloadEntry.single v, lookupEntry_normalizeField_none p n v h, rfl⟩
  · cases e with
    | single w =>
        exact ⟨PayloadEntry.list [w, v], lookupEntry_normalizeField_single p n w v h,
          by simp [entryHas]⟩
    | list ws =>
        exact ⟨PayloadEntry.list (ws ++ [v]), lookupEntry_normalizeField_list p n ws v h,
          by simp [entryHas]⟩

lemma lookupEntry_normalizeField_other :
    ∀ (p : ParsedPayload) (n m : String) (w : ParsedValue), m ≠ n →
      lookupEntry (normalizeField p m w) n = lookupEntry p n := by
  intro p
  induction p with
  | nil =>
      intro n m w hm
      simp [normalizeField, lookupEntry, hm]
  | cons kv rest ih =>
      intro n m w hm
      obtain ⟨k, e'⟩ := kv
      by_cases hk : k = m
      · subst hk
        have hkn : ¬ (k = n) := fun h => hm (h ▸ rfl)
        cases e' <;> simp [normalizeField, lookupEntry, hkn]
      · by_cases hkn : k = n
        · subst hkn
          simp [normalizeField, hk, lookupEntry]
        · simp [normalizeField, hk, lookupEntry, hkn, ih n m w hm]

lemma payloadContains_normalizeField_mono (p : ParsedPayload) (n : String)
    (v : ParsedValue) (m : String) (w : ParsedValue)
    (h : payloadContains p n v) : payloadContains (normalizeField p m w) n v := by
  obtain ⟨e, he, hv⟩ := h
  by_cases hm : m = n
  · subst hm
    cases e with
    | single u =>
        refine ⟨PayloadEntry.list [u, w], lookupEntry_normalizeField_single p m u w he, ?_⟩
        simp [entryHas] at hv ⊢
        exact Or.inl hv.symm
    | list us =>
        refine ⟨PayloadEntry.list (us ++ [w]), lookupEntry_normalizeField_list p m us w he, ?_⟩
        simp [entryHas] at hv ⊢
        exact Or.inl hv
  · exact ⟨e, (lookupEntry_normalizeField_other p n m w hm).trans he, hv⟩

/-! ### Size consistency of buffered files -/

lemma onFileData_sizeInv (opts : ParserOptions) (st : PState) (acc : FileAcc)
    (c : Chunk)
    (h : st.hasError = false → acc.fileSizeExceeded = false →
      acc.size = acc.chunks.flatten.length) :
    ((onFileData opts st acc c).1).hasError = false →
    ((onFileData opts st acc c).2).fileSizeExceeded = false →
    ((onFileData opts st acc c).2).size = ((onFileData opts st acc c).2).chunks.flatten.length := by
  unfold onFileData
  dsimp only
  split
  · intro h1 h2
    exact h (by simpa using h1) (by simpa using h2)
  · rename_i hne
    rw [Bool.or_eq_true, not_or, Bool.not_eq_true, Bool.not_eq_true] at hne
    split
    · intro _ h2
      simp at h2
    · split
      · split
        · intro _ h2
          simp at h2
        · intro _ _
          simp [h hne.1 hne.2]
      · intro _ _
        simp [h hne.1 hne.2]

lemma foldFileData_sizeInv (opts : ParserOptions) :
    ∀ (chunks : List Chunk) (st : PState) (acc : FileAcc),
      (st.hasError = false → acc.fileSizeExceeded = false →
        acc.size = acc.chunks.flatten.length) →
      ((foldFileData opts st acc chunks).1).hasError = false →
      ((foldFileData opts st acc chunks).2).fileSizeExceeded = false →
      ((foldFileData opts st acc chunks).2).size
        = ((foldFileData opts st acc chunks).2).chunks.flatten.length := by
  intro chunks
  induction chunks with
  | nil => intro st acc h h1 h2; exact h (by simpa [foldFileData] using h1) (by simpa [foldFileData] using h2)
  | cons c cs ih =>
      intro st acc h
      simp only [foldFileData]
      exact ih _ _ (onFileData_sizeInv opts st acc c h)

lemma sizeConsistent_step (jp : String → Option JsonVal) (opts : ParserOptions)
    (st : PState) (e : DecoderEvent) (h : sizeConsistent st) :
    sizeConsistent (step jp opts st e) := by
  cases e with
  | field name value =>
      intro f hf
      exact h f (by simpa [step] using hf)
  | file name info chunks =>
      simp only [step, processFileEvent]
      split
      · intro f hf
        refine h f ?_
        revert hf
        simp [settle]
        split <;> simp
      · intro f hf
        rw [onFileEnd] at hf
        revert hf
        split
        · rename_i hcond
          rw [Bool.and_eq_true, Bool.not_eq_true', Bool.not_eq_true'] at hcond
          rw [(foldFileData_preserves opts chunks _ _).2.1]
          intro hf
          rcases List.mem_append.mp hf with hold | hnew
          · exact h f hold
          · simp at hnew
            subst hnew
            simpa using foldFileData_sizeInv opts chunks _ _ (by simp) hcond.1 hcond.2
        · rw [(foldFileData_preserves opts chunks _ _).2.1]
          intro hf
          exact h f hf
  | limit =>
      simp only [step]
      split
      · exact h
      · intro f hf
        refine h f ?_
        revert hf
        simp [settle]
        split <;> simp
  | error =>
      intro f hf
      refine h f ?_
      revert hf
      simp only [step, settle]
      split <;> simp
  | finish =>
      simp only [step]
      split
      · exact h
      · intro f hf
        refine h f ?_
        revert hf
        simp [settle]
        split <;> simp

lemma sizeConsistent_runEvents (jp : String → Option JsonVal) (opts : ParserOptions) :
    ∀ (es : List DecoderEvent) (st : PState), sizeConsistent st →
      sizeConsistent (runEvents jp opts st es) := by
  intro es
  induction es with
  | nil => intro st h; simpa [runEvents] using h
  | cons e es ih =>
      intro st h
      rw [runEvents_cons]
      exact ih _ (sizeConsistent_step jp opts st e h)

/-! ### Claim theorems -/

/-- C2: for every decoder event sequence, the first settled outcome wins:
once the promise is settled (in particular after the first failure), every
later event — further failures and the eventual finish event included —
leaves the surfaced outcome unchanged, so a finish arriving after a
failure never resolves with a payload. -/
theorem first_outcome_wins (jp : String → Option JsonVal) (opts : ParserOptions)
    (e₁ e₂ : List DecoderEvent) (o : Outcome)
    (h : (runEvents jp opts initState e₁).settled = some o) :
    (runEvents jp opts initState (e₁ ++ e₂)).settled = some o := by
  rw [runEvents_append]
  exact settled_runEvents_of_some e₂ h

theorem first_outcome_wins_witness :
    (runEvents jsonNone DEFAULT_OPTIONS initState
        ([DecoderEvent.limit] ++ [DecoderEvent.finish])).settled
      = some (Outcome.err IngestError.fileSizeLimitEvent) :=
  first_outcome_wins jsonNone DEFAULT_OPTIONS [DecoderEvent.limit]
    [DecoderEvent.finish] (Outcome.err IngestError.fileSizeLimitEvent) (by decide)

/-- C5: after a failure has settled the promise, the remaining stream is
still fully consumed: the run over the whole event sequence consumes every
file byte of every event (buffered or drained), and the stream reaches its
end with the settled outcome unchanged. -/
theorem drain_after_failure (jp : String → Option JsonVal) (opts : ParserOptions)
    (e₁ e₂ : List DecoderEvent) (f : IngestError)
    (h : (runEvents jp opts initState e₁).settled = some (Outcome.err f)) :
    (runEvents jp opts initState (e₁ ++ e₂)).settled = some (Outcome.err f) ∧
    (runEvents jp opts initState (e₁ ++ e₂)).consumedBytes = eventsBytes (e₁ ++ e₂) := by
  constructor
  · rw [runEvents_append]
    exact settled_runEvents_of_some e₂ h
  · have := consumed_runEvents jp opts (e₁ ++ e₂) initState
    simpa [initState] using this

theorem drain_after_failure_witness :
    (runEvents jsonNone DEFAULT_OPTIONS initState
        ([DecoderEvent.limit] ++
          [DecoderEvent.file "f" (FileInfo.mk "a.txt" "7bit" "text/plain") [[1, 2]]])).consumedBytes
      = eventsBytes ([DecoderEvent.limit] ++
          [DecoderEvent.file "f" (FileInfo.mk "a.txt" "7bit" "text/plain") [[1, 2]]]) :=
  (drain_after_failure jsonNone DEFAULT_OPTIONS [DecoderEvent.limit]
    [DecoderEvent.file "f" (FileInfo.mk "a.txt" "7bit" "text/plain") [[1, 2]]]
    IngestError.fileSizeLimitEvent (by decide)).2

/-- C10: every file kept by an ingestion run has its recorded size equal
to the byte length of its buffer (the concatenation of the chunks it
received), for every configuration, event sequence and chunking. -/
theorem parsedFile_size_eq_buffer_length (jp : String → Option JsonVal)
    (opts : ParserOptions) (es : List DecoderEvent) (f : ParsedFile)
    (h : f ∈ (runEvents jp opts initState es).files) :
    f.size = f.buffer.length :=
  sizeConsistent_runEvents jp opts es initState
    (by intro g hg; simp [initState] at hg) f h

theorem parsedFile_size_eq_buffer_length_witness :
    (ParsedFile.mk "f" "a.txt" "7bit" "text/plain" 3 [1, 2, 3]).size
      = (ParsedFile.mk "f" "a.txt" "7bit" "text/plain" 3 [1, 2, 3]).buffer.length :=
  parsedFile_size_eq_buffer_length jsonNone DEFAULT_OPTIONS
    [DecoderEvent.file "f" (FileInfo.mk "a.txt" "7bit" "text/plain") [[1, 2], [3]]]
    (ParsedFile.mk "f" "a.txt" "7bit" "text/plain" 3 [1, 2, 3]) (by decide)

/-- C6: under a name not yet present, the first insertion stores the bare
value, the second converts it to the two-element ordered list, the third
appends, preserving arrival order; and the spec scenario holds: two fields
named tag with values a then b yield the payload mapping tag to the list
of a then b. -/
theorem normalizeField_aggregation (p : ParsedPayload) (n : String)
    (v₁ v₂ v₃ : ParsedValue) (h : lookupEntry p n = none) :
    lookupEntry (normalizeField p n v₁) n = some (PayloadEntry.single v₁) ∧
    lookupEntry (normalizeField (normalizeField p n v₁) n v₂) n
      = some (PayloadEntry.list [v₁, v₂]) ∧
    lookupEntry (normalizeField (normalizeField (normalizeField p n v₁) n v₂) n v₃) n
      = some (PayloadEntry.list [v₁, v₂, v₃]) ∧
    parseMultipart jsonNone DEFAULT_OPTIONS (some "multipart/form-data; boundary=x")
        [DecoderEvent.field "tag" "a", DecoderEvent.field "tag" "b", DecoderEvent.finish]
      = some (Outcome.ok [("tag", PayloadEntry.list [ParsedValue.str "a", ParsedValue.str "b"])]) := by
  have h1 := lookupEntry_normalizeField_none p n v₁ h
  have h2 := lookupEntry_normalizeField_single _ n v₁ v₂ h1
  have h3 := lookupEntry_normalizeField_list _ n [v₁, v₂] v₃ h2
  exact ⟨h1, h2, by simpa using h3, by decide⟩

theorem normalizeField_aggregation_witness :
    lookupEntry (normalizeField [("z", PayloadEntry.single (ParsedValue.str "q"))]
        "tag" (ParsedValue.str "a")) "tag"
      = some (PayloadEntry.single (ParsedValue.str "a")) :=
  (normalizeField_aggregation [("z", PayloadEntry.single (ParsedValue.str "q"))]
    "tag" (ParsedValue.str "a") (ParsedValue.str "b") (ParsedValue.str "c") (by decide)).1

/-- C4 counterexample: with maxFields set to 1, two field events are
ingested without any failure — the run resolves with both fields in the
payload, so more than maxFields field events do not make the ingestion
fail: parseMultipart itself counts no fields and raises no TooManyFields
(it only forwards the bound to the decoder's own limits). -/
theorem tooManyFields_not_raised :
    parseMultipart jsonNone
        { DEFAULT_OPTIONS with maxFields := 1 } (some "multipart/form-data; boundary=x")
        [DecoderEvent.field "a" "x", DecoderEvent.field "b" "y", DecoderEvent.finish]
      = some (Outcome.ok [("a", PayloadEntry.single (ParsedValue.str "x")),
          ("b", PayloadEntry.single (ParsedValue.str "y"))]) := by
  decide

/-- C4 amended: the limit enforcement inside parseMultipart never fails on
field events — any number of field events (in particular more than
maxFields of them) followed by finish resolves successfully, for every
configuration; bounding the field count is left entirely to the decoder
layer. -/
theorem fields_never_fail (jp : String → Option JsonVal) (opts : ParserOptions)
    (es : List DecoderEvent) (h : ∀ e ∈ es, isFieldEvent e = true) :
    ∃ p, (runEvents jp opts initState (es ++ [DecoderEvent.finish])).settled
      = some (Outcome.ok p) := by
  obtain ⟨h1, h2, _, _, _, _⟩ := runEvents_fields jp opts es initState h
  rw [runEvents_append]
  have hnone : (runEvents jp opts initState es).settled = none := by rw [h1]; rfl
  have hhe : (runEvents jp opts initState es).hasError = false := by rw [h2]; rfl
  refine ⟨(runEvents jp opts initState es).files.foldl
      (fun p f => normalizeField p f.fieldname (ParsedValue.file f))
      (runEvents jp opts initState es).payload, ?_⟩
  simp only [runEvents] at hnone hhe
  simp [runEvents, step, hhe, settle, hnone]

theorem fields_never_fail_witness :
    ∃ p, (runEvents jsonNone { DEFAULT_OPTIONS with maxFields := 1 } initState
        ([DecoderEvent.field "a" "x", DecoderEvent.field "b" "y"] ++ [DecoderEvent.finish])).settled
      = some (Outcome.ok p) :=
  fields_never_fail jsonNone { DEFAULT_OPTIONS with maxFields := 1 }
    [DecoderEvent.field "a" "x", DecoderEvent.field "b" "y"] (by decide)

/-- C8 counterexample: after the limit failure has settled the promise
with an error, a later field event still mutates the payload object — the
payload is empty right after the failure and holds the new field after the
next field event, contradicting that every entry is left unchanged. -/
theorem payload_mutates_after_failure :
    (runEvents jsonNone DEFAULT_OPTIONS initState [DecoderEvent.limit]).settled
      = some (Outcome.err IngestError.fileSizeLimitEvent) ∧
    (runEvents jsonNone DEFAULT_OPTIONS initState [DecoderEvent.limit]).payload = [] ∧
    (runEvents jsonNone DEFAULT_OPTIONS initState
        [DecoderEvent.limit, DecoderEvent.field "a" "x"]).payload
      = [("a", PayloadEntry.single (ParsedValue.str "x"))] := by
  decide

/-- C8 amended: after the first failure (error flag set, promise settled
with an outcome), the surfaced outcome never changes, no further file is
kept, and the stream keeps being consumed to its end; internal payload
mutation by later field events, however, does continue (see the
counterexample) and is never observable because the settled outcome is
final. -/
theorem failure_freezes_outcome_and_files (jp : String → Option JsonVal)
    (opts : ParserOptions) (es : List DecoderEvent) (st : PState) (o : Outcome)
    (he : st.hasError = true) (hs : st.settled = some o) :
    (runEvents jp opts st es).settled = some o ∧
    (runEvents jp opts st es).files = st.files ∧
    (runEvents jp opts st es).consumedBytes = st.consumedBytes + eventsBytes es := by
  obtain ⟨_, a, b, c⟩ := runEvents_inert es he hs
  exact ⟨a, b, c⟩

theorem failure_freezes_outcome_and_files_witness :
    (runEvents jsonNone DEFAULT_OPTIONS
        (runEvents jsonNone DEFAULT_OPTIONS initState [DecoderEvent.limit])
        [DecoderEvent.field "a" "x"]).settled
      = some (Outcome.err IngestError.fileSizeLimitEvent) :=
  (failure_freezes_outcome_and_files jsonNone DEFAULT_OPTIONS
    [DecoderEvent.field "a" "x"]
    (runEvents jsonNone DEFAULT_OPTIONS initState [DecoderEvent.limit])
    (Outcome.err IngestError.fileSizeLimitEvent) (by decide) (by decide)).1

/-- C9 counterexample: the string NaN does parse as the numeric value NaN
under the JavaScript numeric grammar, but autoParse returns it unchanged
as a string — the isNaN guard in the number branch rejects it — so the
claim that it coerces to the number NaN is false. -/
theorem autoParse_nan_stays_string :
    strToNumber "NaN" = JSNum.nan ∧
    autoParse jsonNone "NaN" DEFAULT_OPTIONS = ParsedValue.str "NaN" ∧
    ParsedValue.str "NaN" ≠ ParsedValue.num JSNum.nan := by
  decide

lemma jsIsNaN_eq_false {n : JSNum} (h : n ≠ JSNum.nan) : jsIsNaN n = false := by
  cases n with
  | nan => exact absurd rfl h
  | posInf => rfl
  | negInf => rfl
  | fin q => rfl

/-- C9 amended: with autoParseNumbers enabled, every value outside the
JSON-delimited shapes whose JavaScript numeric conversion is not NaN and
whose trim is non-blank coerces to that numeric value — including the
infinities — but the string NaN itself is rejected by the isNaN guard and
stays a string. -/
theorem autoParse_numeric_values (jp : String → Option JsonVal)
    (opts : ParserOptions) (v : String)
    (hnum : opts.autoParseNumbers = true)
    (hjson : jsonDelimited v = false)
    (hnan : strToNumber v ≠ JSNum.nan)
    (htrim : ¬ (jsTrim v = "")) :
    autoParse jp v opts = ParsedValue.num (strToNumber v) ∧
    autoParse jp "Infinity" opts = ParsedValue.num JSNum.posInf ∧
    autoParse jp "-Infinity" opts = ParsedValue.num JSNum.negInf ∧
    autoParse jp "NaN" opts = ParsedValue.str "NaN" := by
  refine ⟨?_, ?_, ?_, ?_⟩
  · simp [autoParse, hjson, hnum, jsIsNaN_eq_false hnan, htrim]
  · simp [autoParse, (by decide : jsonDelimited "Infinity" = false), hnum,
      (by decide : strToNumber "Infinity" = JSNum.posInf), jsIsNaN,
      (by decide : ¬ (jsTrim "Infinity" = ""))]
  · simp [autoParse, (by decide : jsonDelimited "-Infinity" = false), hnum,
      (by decide : strToNumber "-Infinity" = JSNum.negInf), jsIsNaN,
      (by decide : ¬ (jsTrim "-Infinity" = ""))]
  · simp [autoParse, (by decide : jsonDelimited "NaN" = false),
      (by decide : strToNumber "NaN" = JSNum.nan), jsIsNaN,
      (by decide : ¬ ("NaN" = "true")), (by decide : ¬ ("NaN" = "false"))]

theorem autoParse_numeric_values_witness :
    autoParse jsonNone "25" DEFAULT_OPTIONS = ParsedValue.num (strToNumber "25") :=
  (autoParse_numeric_values jsonNone DEFAULT_OPTIONS "25" (by decide) (by decide)
    (by decide) (by decide)).1

/-- C7 counterexample: a file named tag arrives before a text field named
tag, yet the final payload lists the field value first and the file
second — the aggregated list is not in decoder arrival order; and with
distinct names the payload's key order (field name first, file name
second) also differs from first-occurrence arrival order (file first). -/
theorem file_after_field_despite_arrival :
    (runEvents jsonNone DEFAULT_OPTIONS initState
        [DecoderEvent.file "tag" (FileInfo.mk "f.txt" "7bit" "text/plain") [[7]],
         DecoderEvent.field "tag" "x", DecoderEvent.finish]).settled
      = some (Outcome.ok [("tag", PayloadEntry.list [ParsedValue.str "x",
          ParsedValue.file (ParsedFile.mk "tag" "f.txt" "7bit" "text/plain" 1 [7])])]) ∧
    [ParsedValue.str "x", ParsedValue.file (ParsedFile.mk "tag" "f.txt" "7bit" "text/plain" 1 [7])]
      ≠ [ParsedValue.file (ParsedFile.mk "tag" "f.txt" "7bit" "text/plain" 1 [7]),
         ParsedValue.str "x"] ∧
    (runEvents jsonNone DEFAULT_OPTIONS initState
        [DecoderEvent.file "a" (FileInfo.mk "f.txt" "7bit" "text/plain") [[7]],
         DecoderEvent.field "b" "x", DecoderEvent.finish]).settled
      = some (Outcome.ok [("b", PayloadEntry.single (ParsedValue.str "x")),
          ("a", PayloadEntry.single (ParsedValue.file
            (ParsedFile.mk "a" "f.txt" "7bit" "text/plain" 1 [7])))]) := by
  decide

/-- C3: the file event after maxFiles prior file events always fails the
(still unsettled) ingestion with TooManyFiles, whatever that file's chunks
are: the outcome of the whole run is the TooManyFiles error, and the
excess file contributes nothing to the kept files or the size accounting —
its sub-stream is only drained (its bytes are consumed, never buffered). -/
theorem excess_file_rejected (jp : String → Option JsonVal) (opts : ParserOptions)
    (e₁ e₂ : List DecoderEvent) (n : String) (info : FileInfo) (chunks : List Chunk)
    (hcount : countFileEvents e₁ = opts.maxFiles)
    (hok : (runEvents jp opts initState e₁).settled = none) :
    (runEvents jp opts initState (e₁ ++ DecoderEvent.file n info chunks :: e₂)).settled
      = some (Outcome.err (IngestError.tooManyFiles opts.maxFiles)) ∧
    (runEvents jp opts initState (e₁ ++ [DecoderEvent.file n info chunks])).files
      = (runEvents jp opts initState e₁).files ∧
    (runEvents jp opts initState (e₁ ++ [DecoderEvent.file n info chunks])).totalFileSize
      = (runEvents jp opts initState e₁).totalFileSize ∧
    (runEvents jp opts initState (e₁ ++ [DecoderEvent.file n info chunks])).consumedBytes
      = (runEvents jp opts initState e₁).consumedBytes + chunksBytes chunks := by
  have hfc : (runEvents jp opts initState e₁).fileCount = opts.maxFiles := by
    have := fileCount_runEvents jp opts e₁ initState
    rw [this, hcount]
    simp [initState]
  have hstep : step jp opts (runEvents jp opts initState e₁)
        (DecoderEvent.file n info chunks)
      = { runEvents jp opts initState e₁ with
            fileCount := (runEvents jp opts initState e₁).fileCount + 1,
            hasError := true,
            consumedBytes := (runEvents jp opts initState e₁).consumedBytes + chunksBytes chunks,
            settled := some (Outcome.err (IngestError.tooManyFiles opts.maxFiles)) } := by
    simp only [step, processFileEvent]
    rw [if_pos (by rw [hfc]; omega)]
    simp [settle, hok]
  have hone : runEvents jp opts initState (e₁ ++ [DecoderEvent.file n info chunks])
      = step jp opts (runEvents jp opts initState e₁) (DecoderEvent.file n info chunks) := by
    rw [runEvents_append]
    rfl
  refine ⟨?_, ?_, ?_, ?_⟩
  · have hsplit : e₁ ++ DecoderEvent.file n info chunks :: e₂
        = (e₁ ++ [DecoderEvent.file n info chunks]) ++ e₂ := by simp
    rw [hsplit, runEvents_append, hone, hstep]
    exact settled_runEvents_of_some e₂ rfl
  · rw [hone, hstep]
  · rw [hone, hstep]
  · rw [hone, hstep]

theorem excess_file_rejected_witness :
    (runEvents jsonNone { DEFAULT_OPTIONS with maxFiles := 1 } initState
        ([DecoderEvent.file "f" (FileInfo.mk "a" "7bit" "text/plain") [[1]]]
          ++ DecoderEvent.file "g" (FileInfo.mk "b" "7bit" "text/plain") [[2, 3]]
              :: [DecoderEvent.finish])).settled
      = some (Outcome.err (IngestError.tooManyFiles 1)) :=
  (excess_file_rejected jsonNone { DEFAULT_OPTIONS with maxFiles := 1 }
    [DecoderEvent.file "f" (FileInfo.mk "a" "7bit" "text/plain") [[1]]]
    [DecoderEvent.finish] "g" (FileInfo.mk "b" "7bit" "text/plain") [[2, 3]]
    (by decide) (by decide)).1

/-- C7 amended: files and text fields do share one name space and the same
aggregation function (normalizeField), but files are merged into the
payload only at finish: when a file arrives before a field, the resolved
payload is the field-built payload with the file appended afterwards — in
the mixed case the final order is fields (in field arrival order) then
files (in file arrival order), not global decoder arrival order. -/
theorem files_merged_at_finish (jp : String → Option JsonVal)
    (opts : ParserOptions) (n m v : String) (info : FileInfo) (chunks : List Chunk)
    (htot : opts.maxTotalFileSize = none) (hmax : 1 ≤ opts.maxFiles)
    (hsize : chunksBytes chunks ≤ opts.maxFileSize) :
    (runEvents jp opts initState
        [DecoderEvent.file n info chunks, DecoderEvent.field m v, DecoderEvent.finish]).settled
      = some (Outcome.ok (normalizeField (normalizeField [] m (autoParse jp v opts)) n
          (ParsedValue.file (ParsedFile.mk n info.filename info.encoding info.mimeType
            (chunksBytes chunks) chunks.flatten)))) := by
  have h1 : step jp opts initState (DecoderEvent.file n info chunks)
      = { initState with
            fileCount := 1
            totalFileSize := chunksBytes chunks
            consumedBytes := chunksBytes chunks
            files := [ParsedFile.mk n info.filename info.encoding info.mimeType
              (chunksBytes chunks) chunks.flatten] } := by
    simp only [step, processFileEvent]
    rw [if_neg (by simp [initState]; omega)]
    rw [foldFileData_ok htot chunks _ _ (by simp [initState]) rfl (by simpa using hsize)]
    simp [onFileEnd, initState]
  have heq : runEvents jp opts initState
        [DecoderEvent.file n info chunks, DecoderEvent.field m v, DecoderEvent.finish]
      = step jp opts (step jp opts (step jp opts initState
          (DecoderEvent.file n info chunks)) (DecoderEvent.field m v))
          DecoderEvent.finish := rfl
  rw [heq, h1, step_field]
  simp [step, settle, initState, normalizeField]

theorem files_merged_at_finish_witness :
    (runEvents jsonNone DEFAULT_OPTIONS initState
        [DecoderEvent.file "tag" (FileInfo.mk "f.txt" "7bit" "text/plain") [[7]],
         DecoderEvent.field "tag" "x", DecoderEvent.finish]).settled
      = some (Outcome.ok (normalizeField
          (normalizeField [] "tag" (autoParse jsonNone "x" DEFAULT_OPTIONS)) "tag"
          (ParsedValue.file (ParsedFile.mk "tag" "f.txt" "7bit" "text/plain"
            (chunksBytes [[7]]) ([[7]] : List Chunk).flatten)))) :=
  files_merged_at_finish jsonNone DEFAULT_OPTIONS "tag" "tag" "x"
    (FileInfo.mk "f.txt" "7bit" "text/plain") [[7]] (by decide) (by decide) (by decide)

/-- C1: for an ingestion whose decoder emits one file event (surrounded by
arbitrary text-field events and closed by finish), a file of total size
exactly maxFileSize succeeds and the resulting payload contains the
ParsedFile with the full buffer, while a file one byte over fails with the
FileTooLarge error, so no payload is surfaced. -/
theorem file_size_boundary (jp : String → Option JsonVal) (opts : ParserOptions)
    (fs₁ fs₂ : List DecoderEvent) (n : String) (info : FileInfo) (chunks : List Chunk)
    (hf₁ : ∀ e ∈ fs₁, isFieldEvent e = true)
    (hf₂ : ∀ e ∈ fs₂, isFieldEvent e = true)
    (htot : opts.maxTotalFileSize = none)
    (hmax : 1 ≤ opts.maxFiles) :
    (chunksBytes chunks = opts.maxFileSize →
      ∃ p, (runEvents jp opts initState
          (fs₁ ++ DecoderEvent.file n info chunks :: (fs₂ ++ [DecoderEvent.finish]))).settled
        = some (Outcome.ok p) ∧
        payloadContains p n (ParsedValue.file (ParsedFile.mk n info.filename info.encoding
          info.mimeType opts.maxFileSize chunks.flatten))) ∧
    (chunksBytes chunks = opts.maxFileSize + 1 →
      (runEvents jp opts initState
          (fs₁ ++ DecoderEvent.file n info chunks :: (fs₂ ++ [DecoderEvent.finish]))).settled
        = some (Outcome.err (IngestError.fileTooLarge opts.maxFileSize))) := by
  obtain ⟨hs₁, he₁, hfs₁, hfc₁, _, _⟩ :=
    runEvents_fields jp opts fs₁ initState hf₁
  set st1 := runEvents jp opts initState fs₁ with hst1def
  have hs1 : st1.settled = none := by rw [hs₁]; rfl
  have he1 : st1.hasError = false := by rw [he₁]; rfl
  have hfl1 : st1.files = [] := by rw [hfs₁]; rfl
  have hfc1 : st1.fileCount = 0 := by rw [hfc₁]; rfl
  have hcond : ¬ (opts.maxFiles < st1.fileCount + 1) := by rw [hfc1]; omega
  have hdecomp : runEvents jp opts initState
        (fs₁ ++ DecoderEvent.file n info chunks :: (fs₂ ++ [DecoderEvent.finish]))
      = step jp opts
          (runEvents jp opts (processFileEvent opts st1 n info chunks) fs₂)
          DecoderEvent.finish := by
    rw [runEvents_append, runEvents_cons, runEvents_append]
    rfl
  constructor
  · -- exactly maxFileSize: success
    intro hB
    have hstep : processFileEvent opts st1 n info chunks
        = { st1 with
              fileCount := st1.fileCount + 1
              totalFileSize := st1.totalFileSize + chunksBytes chunks
              consumedBytes := st1.consumedBytes + chunksBytes chunks
              files := st1.files ++ [ParsedFile.mk n info.filename info.encoding
                info.mimeType (chunksBytes chunks) chunks.flatten] } := by
      simp only [processFileEvent]
      rw [if_neg hcond]
      rw [foldFileData_ok htot chunks _ _ (by simpa using he1) rfl (by simp [hB])]
      simp [onFileEnd, he1]
    obtain ⟨gs, ge, gf, _, _, _⟩ := runEvents_fields jp opts fs₂
      (processFileEvent opts st1 n info chunks) hf₂
    have hs3 : (runEvents jp opts (processFileEvent opts st1 n info chunks) fs₂).settled
        = none := by rw [gs, hstep]; simpa using hs1
    have he3 : (runEvents jp opts (processFileEvent opts st1 n info chunks) fs₂).hasError
        = false := by rw [ge, hstep]; simpa using he1
    have hfiles3 : (runEvents jp opts (processFileEvent opts st1 n info chunks) fs₂).files
        = [ParsedFile.mk n info.filename info.encoding info.mimeType
            (chunksBytes chunks) chunks.flatten] := by
      rw [gf, hstep]
      simp [hfl1]
    refine ⟨normalizeField
        (runEvents jp opts (processFileEvent opts st1 n info chunks) fs₂).payload n
        (ParsedValue.file (ParsedFile.mk n info.filename info.encoding info.mimeType
          (chunksBytes chunks) chunks.flatten)), ?_, ?_⟩
    · rw [hdecomp]
      have hP : (runEvents jp opts (processFileEvent opts st1 n info chunks) fs₂).files.foldl
            (fun p f => normalizeField p f.fieldname (ParsedValue.file f))
            (runEvents jp opts (processFileEvent opts st1 n info chunks) fs₂).payload
          = normalizeField
              (runEvents jp opts (processFileEvent opts st1 n info chunks) fs₂).payload n
              (ParsedValue.file (ParsedFile.mk n info.filename info.encoding info.mimeType
                (chunksBytes chunks) chunks.flatten)) := by
        rw [hfiles3]
        simp [List.foldl]
      simp only [step]
      rw [if_neg (by rw [he3]; simp)]
      rw [hP]
      simp [settle, hs3]
    · rw [show opts.maxFileSize = chunksBytes chunks from hB.symm]
      exact payloadContains_normalizeField_self _ n _
  · -- one byte over: FileTooLarge
    intro hB
    obtain ⟨x1, x2, x3⟩ := foldFileData_exceed htot chunks
      { st1 with fileCount := st1.fileCount + 1 }
      { size := 0, fileSizeExceeded := false, chunks := [] }
      (by simpa using he1) (by simpa using hs1) rfl (by simp) (by simp [hB])
    have hst2set : (processFileEvent opts st1 n info chunks).settled
        = some (Outcome.err (IngestError.fileTooLarge opts.maxFileSize)) := by
      simp only [processFileEvent]
      rw [if_neg hcond, settled_onFileEnd]
      exact x1
    have hst2he : (processFileEvent opts st1 n info chunks).hasError = true := by
      simp only [processFileEvent]
      rw [if_neg hcond, (onFileEnd_preserves _ _ _ _).2.2.2.1]
      exact x2
    obtain ⟨gs, ge, _, _, _, _⟩ := runEvents_fields jp opts fs₂
      (processFileEvent opts st1 n info chunks) hf₂
    rw [hdecomp]
    simp only [step]
    rw [if_pos (by rw [ge]; exact hst2he)]
    rw [gs, hst2set]

theorem file_size_boundary_witness :
    (chunksBytes [[1, 2], [3]] = ({ DEFAULT_OPTIONS with maxFileSize := 2 } : ParserOptions).maxFileSize + 1) ∧
    (runEvents jsonNone { DEFAULT_OPTIONS with maxFileSize := 2 } initState
        ([] ++ DecoderEvent.file "f" (FileInfo.mk "a.txt" "7bit" "text/plain") [[1, 2], [3]]
            :: ([] ++ [DecoderEvent.finish]))).settled
      = some (Outcome.err (IngestError.fileTooLarge 2)) :=
  ⟨by decide,
   (file_size_boundary jsonNone { DEFAULT_OPTIONS with maxFileSize := 2 } [] []
     "f" (FileInfo.mk "a.txt" "7bit" "text/plain") [[1, 2], [3]]
     (by decide) (by decide) (by decide) (by decide)).2 (by decide)⟩

end FormData
